import Mathlib

/-!
Verification development for the fTornado shielded-pool contracts.

The embedding translates `src/contracts/fTornado.sol` and
`src/contracts/ERC7984.sol` into executable Lean definitions.  The
confidential (FHE) ledger is modelled over a plaintext backend: an
`euint64` handle is its plaintext value (a `Nat` below `2 ^ 64`), an
uninitialized handle is `Option.none`.  Solidity mappings become
association lists, and the EVM's revert-on-failure transaction semantics
become `Except`: an operation either returns the fully updated state or
an error with no state change.

Two source files referenced by the contracts are not part of the sources
(`utils/MerkleTreeWithHistory.sol` and `utils/FHESafeMath.sol`); the
corresponding definitions are modelled from the specification and marked
as such in their doc comments.
-/

set_option autoImplicit false

namespace FT

/-- The euint64 modulus. -/
abbrev U64 : Nat := 2 ^ 64

/-- The address modulus (Solidity uint160 cast). -/
abbrev U160 : Nat := 2 ^ 160

/-! ### Association-list maps (Solidity `mapping`s) -/

/-- Lookup in an association list; `none` models a never-written key. -/
def mlookup {κ : Type} {α : Type} [DecidableEq κ] : List (κ × α) → κ → Option α
  | [], _ => none
  | (k, v) :: t, a => if k = a then some v else mlookup t a

/-- Write a key in an association list, replacing an existing entry. -/
def mset {κ : Type} {α : Type} [DecidableEq κ] : List (κ × α) → κ → α → List (κ × α)
  | [], a, v => [(a, v)]
  | (k, w) :: t, a, v => if k = a then (a, v) :: t else (k, w) :: mset t a v

/-- Sum of all values held in a `Nat`-valued map. -/
def msum (m : List (Nat × Nat)) : Nat := (m.map Prod.snd).sum

/-! ### Plaintext backend for the FHE primitives -/

/-- Plaintext value of a possibly-uninitialized euint64 handle. -/
def oval (x : Option Nat) : Nat := x.getD 0

/-- FHE.add on euint64 plaintexts: wrapping 64-bit addition. -/
def fheAdd (a b : Nat) : Nat := (a + b) % U64

/-- FHE.sub on euint64 plaintexts: wrapping 64-bit subtraction. -/
def fheSub (a b : Nat) : Nat := (a + U64 - b % U64) % U64

/-- FHE.select on plaintexts: oblivious choice between two values. -/
def fheSelect (c : Bool) (a b : Nat) : Nat := cond c a b

/-- Modelled from the spec: `FHESafeMath.tryIncrease` (the file
`utils/FHESafeMath.sol` is not among the sources).  Safe overflow
handling for an increase of a possibly-uninitialized balance handle:
returns the success flag and the updated value, leaving the value
unchanged when the increase would overflow 64 bits. -/
def tryIncrease (old : Option Nat) (delta : Nat) : Bool × Nat :=
  if oval old + delta < U64 then (true, oval old + delta) else (false, oval old)

/-- Modelled from the spec: `FHESafeMath.tryDecrease` (the file
`utils/FHESafeMath.sol` is not among the sources).  Safe underflow
handling: succeeds exactly when the balance covers the delta, otherwise
leaves the value unchanged. -/
def tryDecrease (old : Nat) (delta : Nat) : Bool × Nat :=
  if delta ≤ old then (true, old - delta) else (false, old)

/-! ### Errors and events -/

/-- Revert reasons of the contracts, one constructor per `require` or
custom error reachable in the embedded code. -/
inductive Err where
  | AlreadySpent            -- "The note has been already spent"
  | UnknownRoot             -- "Cannot find your merkle root"
  | InvalidProof            -- "Invalid wrap proof" / "Invalid withdraw proof"
  | CommitmentExists        -- "The commitment has been submitted"
  | StructureFull           -- merkle tree capacity exhausted
  | TransferInFailed        -- "fTornado: insuff bal/allowance"
  | TransferOutFailed       -- "fTornado: insuff bal"
  | AlreadyProcessed        -- "tF: Already processed"
  | InvalidDisclosureProof  -- FHE.checkSignatures rejects
  | InvalidReceiver         -- ERC7984InvalidReceiver
  | InvalidSender           -- ERC7984InvalidSender
  | ZeroBalance             -- ERC7984ZeroBalance
deriving Repr, DecidableEq

/-- Events emitted by the contracts (block numbers omitted). -/
inductive Event where
  | Deposit (commitment leafIndex : Nat)
  | Wrap (user nullifierHash : Nat)
  | Withdraw (user nullifierHash : Nat)
  | PendingUnwrapEvent (user commitment actualAmount index : Nat)
  | UnwrapFinalized (user commitment actualAmount index : Nat)
  | UnwrapFailed (user commitment actualAmount index : Nat)
deriving Repr, DecidableEq

/-! ### ERC7984 confidential ledger (plaintext backend) -/

/-- Balances and total supply of the confidential token; `none` entries
and the missing keys are uninitialized handles. -/
structure Ledger where
  balances : List (Nat × Nat)
  totalSupply : Option Nat
deriving Repr, DecidableEq

/-- Second half of `ERC7984._update`: credit the receiver, or debit the
total supply on burn, by the obliviously `transferred` amount. -/
def updateTo (dst transferred : Nat) (l : Ledger) : Ledger :=
  if dst = 0 then
    { l with totalSupply := some (fheSub (oval l.totalSupply) transferred) }
  else
    { l with balances := mset l.balances dst (fheAdd (oval (mlookup l.balances dst)) transferred) }

/-- `ERC7984._update`: the oblivious balance update.  On the sender side
the decrease is attempted with `tryDecrease`; the transferred amount is
the oblivious selection between the requested amount and zero, so an
insufficient balance is never a control-flow branch or an error. -/
def update (frm dst amt : Nat) (l : Ledger) : Except Err (Ledger × Nat) :=
  if frm = 0 then
    let p := tryIncrease l.totalSupply amt
    let transferred := fheSelect p.1 amt 0
    .ok (updateTo dst transferred { l with totalSupply := some p.2 }, transferred)
  else
    match mlookup l.balances frm with
    | none => .error .ZeroBalance
    | some fromBalance =>
      let p := tryDecrease fromBalance amt
      let transferred := fheSelect p.1 amt 0
      .ok (updateTo dst transferred { l with balances := mset l.balances frm p.2 },
           transferred)

/-- The ledger that `_update` produces when minting (`frm = 0`); split
out so that statements about `wrap` stay readable. -/
def mintResult (dst amt : Nat) (l : Ledger) : Ledger :=
  updateTo dst (fheSelect (tryIncrease l.totalSupply amt).1 amt 0)
    { l with totalSupply := some (tryIncrease l.totalSupply amt).2 }

/-- The amount `_update` obliviously moves when minting. -/
def mintAmt (amt : Nat) (l : Ledger) : Nat :=
  fheSelect (tryIncrease l.totalSupply amt).1 amt 0

/-- `ERC7984._mint`. -/
def mint (dst amt : Nat) (l : Ledger) : Except Err (Ledger × Nat) :=
  if dst = 0 then .error .InvalidReceiver else update 0 dst amt l

/-- `ERC7984._burn`. -/
def burn (frm amt : Nat) (l : Ledger) : Except Err (Ledger × Nat) :=
  if frm = 0 then .error .InvalidSender else update frm 0 amt l

/-- `ERC7984._transfer`, the oblivious confidential transfer between two
accounts. -/
def obliviousTransfer (frm dst amt : Nat) (l : Ledger) : Except Err (Ledger × Nat) :=
  if frm = 0 then .error .InvalidSender
  else if dst = 0 then .error .InvalidReceiver
  else update frm dst amt l

/-! ### External ERC20 asset -/

/-- Modelled from the spec: the external asset custody interface
(`transferIn`/`transferOut`, spec section 6); the concrete ERC20 token
contract is not among the sources.  Standard balance/allowance
bookkeeping; a failed transfer returns `none` and the engine aborts. -/
structure TokenState where
  balances : List (Nat × Nat)
  allowance : List ((Nat × Nat) × Nat)
deriving Repr, DecidableEq

/-- Modelled from the spec: `token.transfer` — moves `amt` from `frm`
into `dst` when the balance covers it, otherwise fails. -/
def tokenTransfer (frm dst amt : Nat) (t : TokenState) : Option TokenState :=
  let bal := oval (mlookup t.balances frm)
  if amt ≤ bal then
    let b1 := mset t.balances frm (bal - amt)
    some { t with balances := mset b1 dst (oval (mlookup b1 dst) + amt) }
  else none

/-- Modelled from the spec: `token.transferFrom` — as `tokenTransfer`
but additionally gated on and consuming the `(owner, spender)`
allowance. -/
def tokenTransferFrom (spender frm dst amt : Nat) (t : TokenState) : Option TokenState :=
  let al := oval (mlookup t.allowance (frm, spender))
  if amt ≤ al then
    match tokenTransfer frm dst amt t with
    | none => none
    | some t1 => some { t1 with allowance := mset t.allowance (frm, spender) (al - amt) }
  else none

/-! ### Pool configuration and state -/

/-- A pending unwrap record (`struct PendingUnwrap`); the Solidity
zero-struct models a deleted or never-created record. -/
structure PendingRec where
  user : Nat
  commitment : Nat
  actualAmount : Nat
deriving Repr, DecidableEq

/-- The zero record, the default value of the `pendingUnwraps` mapping. -/
def emptyRec : PendingRec := ⟨0, 0, 0⟩

/-- Immutable deployment parameters.  `verifier` and `computeRoot` are
the external proof verifier and the external two-input compression
primitive folded over the leaves (both consumed as black boxes per the
spec). -/
structure Config where
  levels : Nat
  rootHistorySize : Nat
  denomination : Nat
  wrappedDenomination : Nat
  poolAddr : Nat
  computeRoot : List Nat → Nat
  verifier : Nat → List Nat → Bool

/-- Full observable contract state. -/
structure State where
  nextIndex : Nat
  leaves : List Nat
  roots : List Nat
  nullifiers : List Nat
  commitments : List Nat
  pending : List (Nat × PendingRec)
  currentPendingIndex : Nat
  ledger : Ledger
  token : TokenState
deriving Repr, DecidableEq

/-- Read function `isSpent`. -/
def isSpent (s : State) (nh : Nat) : Bool := nh ∈ s.nullifiers

/-- Read function `isKnownRoot`: membership in the retained root
window. -/
def isKnownRoot (s : State) (r : Nat) : Bool := r ∈ s.roots

/-- Modelled from the spec: `MerkleTreeWithHistory.insert` (the file
`utils/MerkleTreeWithHistory.sol` is not among the sources, spec
section 4.1).  Fails once `2 ^ levels` leaves exist; otherwise appends
the leaf, recomputes the root with the external compression primitive,
and pushes it into the bounded root-history window, evicting the oldest
entry.  Returns the assigned leaf index. -/
def insertLeaf (cfg : Config) (leaf : Nat) (s : State) : Except Err (State × Nat) :=
  if s.nextIndex < 2 ^ cfg.levels then
    let leaves1 := s.leaves ++ [leaf]
    .ok ({ s with leaves := leaves1,
                  nextIndex := s.nextIndex + 1,
                  roots := (cfg.computeRoot leaves1 :: s.roots).take cfg.rootHistorySize },
         s.nextIndex)
  else .error .StructureFull

/-- `fTornado._insertToMerkle`: duplicate-commitment check, tree
insertion, then registration of the commitment. -/
def insertToMerkle (cfg : Config) (c : Nat) (s : State) : Except Err (State × Nat) :=
  if c ∈ s.commitments then .error .CommitmentExists
  else
    match insertLeaf cfg c s with
    | .error e => .error e
    | .ok (s1, idx) => .ok ({ s1 with commitments := c :: s1.commitments }, idx)

/-- The public-signal vector handed over for proof verification, exactly as
built inline in `wrap` and `withdraw`: addresses are cast through
uint160. -/
def publicSignals (root recipient nh relayer fee refund : Nat) : List Nat :=
  [root, recipient % U160, nh, relayer % U160, fee, refund]

/-! ### Top-level operations -/

/-- `fTornado.deposit`: register the commitment into the tree and the
registry, then pull the denomination from the sender
(`_processDeposit`); any failure reverts the whole call. -/
def deposit (cfg : Config) (sender c : Nat) (s : State) : Except Err (State × List Event) :=
  match insertToMerkle cfg c s with
  | .error e => .error e
  | .ok (s1, idx) =>
    match tokenTransferFrom cfg.poolAddr sender cfg.poolAddr cfg.denomination s1.token with
    | none => .error .TransferInFailed
    | some t1 => .ok ({ s1 with token := t1 }, [.Deposit c idx])

/-- `fTornado.wrap`: nullifier freshness, root knowledge and proof
verification, then mark the nullifier spent and mint the wrapped
denomination for the recipient. -/
def wrap (cfg : Config) (proof root recipient nh relayer fee refund : Nat)
    (s : State) : Except Err (State × List Event) :=
  if nh ∈ s.nullifiers then .error .AlreadySpent
  else if root ∈ s.roots then
    if cfg.verifier proof (publicSignals root recipient nh relayer fee refund) then
      if recipient = 0 then .error .InvalidReceiver
      else
        match update 0 recipient cfg.wrappedDenomination s.ledger with
        | .error e => .error e
        | .ok (l1, _) =>
          .ok ({ s with nullifiers := nh :: s.nullifiers, ledger := l1 },
               [.Wrap recipient nh])
    else .error .InvalidProof
  else .error .UnknownRoot

/-- `fTornado.withdraw`: the same three checks as `wrap`, then mark the
nullifier spent and release the denomination of the external asset for
the recipient (`_processWithdraw`). -/
def withdraw (cfg : Config) (proof root recipient nh relayer fee refund : Nat)
    (s : State) : Except Err (State × List Event) :=
  if nh ∈ s.nullifiers then .error .AlreadySpent
  else if root ∈ s.roots then
    if cfg.verifier proof (publicSignals root recipient nh relayer fee refund) then
      match tokenTransfer cfg.poolAddr recipient cfg.denomination s.token with
      | none => .error .TransferOutFailed
      | some t1 =>
        .ok ({ s with nullifiers := nh :: s.nullifiers, token := t1 },
             [.Withdraw recipient nh])
    else .error .InvalidProof
  else .error .UnknownRoot

/-- `fTornado.unwrap`: obliviously pull the wrapped denomination from
the caller into the pool escrow (`_processConfidentialDeposit`; the
operator check passes since holder = caller and the ACL grant precedes
the transfer), record the pending unwrap under a fresh index, and
request public disclosure of the actual amount. -/
def unwrap (cfg : Config) (sender c : Nat) (s : State) : Except Err (State × List Event) :=
  match obliviousTransfer sender cfg.poolAddr cfg.wrappedDenomination s.ledger with
  | .error e => .error e
  | .ok (l1, actualAmount) =>
    let idx := s.currentPendingIndex
    .ok ({ s with ledger := l1,
                  pending := mset s.pending idx ⟨sender, c, actualAmount⟩,
                  currentPendingIndex := idx + 1 },
         [.PendingUnwrapEvent sender c actualAmount idx])

/-- Modelled from the spec: `FHE.checkSignatures` (the FHE library is
external) — the decryption-oracle proof check accepts exactly the true
cleartext of the stored handle; in the plaintext backend the stored
handle is its cleartext. -/
def disclosureOk (clearAmount stored : Nat) : Bool := clearAmount = stored

/-- `fTornado.finalizeUnwrap`: requires a live record and a valid
disclosure; on a non-zero clear amount inserts the stored commitment
and burns the wrapped denomination from the pool escrow, otherwise only
reports failure; in either branch the record is deleted — but a revert
in the non-zero branch undoes the whole call. -/
def finalizeUnwrap (cfg : Config) (idx clearAmount : Nat) (s : State) :
    Except Err (State × List Event) :=
  let pu := (mlookup s.pending idx).getD emptyRec
  if pu.user = 0 then .error .AlreadyProcessed
  else if disclosureOk clearAmount pu.actualAmount then
    if clearAmount ≠ 0 then
      match insertToMerkle cfg pu.commitment s with
      | .error e => .error e
      | .ok (s1, _) =>
        match burn cfg.poolAddr cfg.wrappedDenomination s1.ledger with
        | .error e => .error e
        | .ok (l1, _) =>
          .ok ({ s1 with ledger := l1, pending := mset s1.pending idx emptyRec },
               [.UnwrapFinalized pu.user pu.commitment pu.actualAmount idx])
    else
      .ok ({ s with pending := mset s.pending idx emptyRec },
           [.UnwrapFailed pu.user pu.commitment pu.actualAmount idx])
  else .error .InvalidDisclosureProof

/-! ### Transactions and sequences -/

/-- The five externally callable operations. -/
inductive Op where
  | deposit (sender commitment : Nat)
  | wrap (proof root recipient nh relayer fee refund : Nat)
  | withdraw (proof root recipient nh relayer fee refund : Nat)
  | unwrap (sender commitment : Nat)
  | finalizeUnwrap (idx clearAmount : Nat)
deriving Repr, DecidableEq

/-- Dispatch an operation. -/
def exec (cfg : Config) (s : State) : Op → Except Err (State × List Event)
  | .deposit sender c => deposit cfg sender c s
  | .wrap p r rec nh rel fee ref => wrap cfg p r rec nh rel fee ref s
  | .withdraw p r rec nh rel fee ref => withdraw cfg p r rec nh rel fee ref s
  | .unwrap sender c => unwrap cfg sender c s
  | .finalizeUnwrap idx clear => finalizeUnwrap cfg idx clear s

/-- EVM transaction semantics: a reverting call leaves the state
untouched. -/
def applyTx (cfg : Config) (s : State) (op : Op) : State :=
  match exec cfg s op with
  | .ok (s1, _) => s1
  | .error _ => s

/-- Run a sequence of transactions, each against the state the previous
one left. -/
def execSeq (cfg : Config) (s : State) : List Op → State
  | [] => s
  | op :: t => execSeq cfg (applyTx cfg s op) t

/-! ### Ledger operation sequences (for the conservation invariant) -/

/-- The confidential-ledger operations of the conservation claim. -/
inductive LedgerOp where
  | mint (dst amt : Nat)
  | burn (frm amt : Nat)
  | transfer (frm dst amt : Nat)
deriving Repr, DecidableEq

/-- Dispatch a ledger operation. -/
def applyLedgerOp (l : Ledger) : LedgerOp → Except Err (Ledger × Nat)
  | .mint dst amt => mint dst amt l
  | .burn frm amt => burn frm amt l
  | .transfer frm dst amt => obliviousTransfer frm dst amt l

/-- One accounting step: on success, also accumulate the effective
minted and burned amounts; a failed operation changes nothing. -/
def ledgerStep (p : Ledger × Nat × Nat) (op : LedgerOp) : Ledger × Nat × Nat :=
  match applyLedgerOp p.1 op with
  | .error _ => p
  | .ok (l1, t) =>
    (l1,
     p.2.1 + (match op with | .mint _ _ => t | _ => 0),
     p.2.2 + (match op with | .burn _ _ => t | _ => 0))

/-- Run a ledger-operation sequence with minted/burned accounting. -/
def runLedger (p : Ledger × Nat × Nat) : List LedgerOp → Ledger × Nat × Nat
  | [] => p
  | op :: t => runLedger (ledgerStep p op) t

/-- The pristine ledger: no balance handle initialized, no supply. -/
def initLedger : Ledger := ⟨[], none⟩

/-! ### Concrete fixtures used by witnesses and counterexamples -/

/-- A concrete deployment: tiny tree, permissive verifier, a simple
concrete stand-in for the external compression primitive. -/
def cfgA : Config :=
  { levels := 4, rootHistorySize := 3, denomination := 100,
    wrappedDenomination := 100, poolAddr := 1,
    computeRoot := fun ls => ls.length + 1000,
    verifier := fun _ _ => true }

/-- As `cfgA` but with a verifier that rejects everything. -/
def cfgB : Config := { cfgA with verifier := fun _ _ => false }

/-- A concrete running state: one known root, the user at address 5
holding external tokens (with allowance granted to the pool) and 100
confidential units; the pool (address 1) holds 100 external tokens. -/
def sW : State :=
  { nextIndex := 0, leaves := [], roots := [7], nullifiers := [],
    commitments := [], pending := [], currentPendingIndex := 0,
    ledger := ⟨[(5, 100)], some 100⟩,
    token := ⟨[(1, 100), (5, 100)], [((5, 1), 100)]⟩ }

/-- As `sW` but the pool holds no external tokens. -/
def sDrained : State := { sW with token := ⟨[], []⟩ }

/-- State with a live pending unwrap whose new commitment is already
registered (record at index 0, actual amount 100, escrow funded). -/
def sDup : State :=
  { sW with pending := [(0, ⟨5, 9, 100⟩)], currentPendingIndex := 1,
            commitments := [9], ledger := ⟨[(1, 100)], some 100⟩ }

/-- As `sDup` but the new commitment is fresh. -/
def sFresh : State :=
  { sW with pending := [(0, ⟨5, 9, 100⟩)], currentPendingIndex := 1,
            ledger := ⟨[(1, 100)], some 100⟩ }

/-- State with a live pending unwrap whose oblivious transfer moved
nothing (actual amount 0). -/
def sZero : State :=
  { sW with pending := [(0, ⟨5, 9, 0⟩)], currentPendingIndex := 1 }

/-- The state after a successful `wrap` of nullifier 11 for recipient 5
from `sW`. -/
def sWafter : State :=
  { sW with nullifiers := [11], ledger := mintResult 5 100 sW.ledger }

/-- The state after a successful `withdraw` of nullifier 11 to
recipient 6 from `sW`. -/
def sWw : State :=
  { sW with nullifiers := [11],
            token := ⟨[(1, 0), (5, 100), (6, 100)], sW.token.allowance⟩ }

/-- The state after successfully finalizing the zero-amount pending
unwrap of `sZero`. -/
def sZeroAfter : State := { sZero with pending := mset sZero.pending 0 emptyRec }

/-! ### Helper lemmas: maps -/

@[simp] theorem msum_nil : msum [] = 0 := rfl

@[simp] theorem msum_cons (k v : Nat) (t : List (Nat × Nat)) :
    msum ((k, v) :: t) = v + msum t := by simp [msum]

theorem mlookup_mset_self {κ α : Type} [DecidableEq κ] (m : List (κ × α)) (a : κ) (v : α) :
    mlookup (mset m a v) a = some v := by
  induction m with
  | nil => simp [mset, mlookup]
  | cons hd t ih =>
    obtain ⟨k, w⟩ := hd
    by_cases hk : k = a
    · simp [mset, hk, mlookup]
    · simp [mset, hk, mlookup, ih]

theorem mlookup_mset_ne {κ α : Type} [DecidableEq κ] (m : List (κ × α)) (a b : κ) (v : α)
    (hab : a ≠ b) : mlookup (mset m a v) b = mlookup m b := by
  induction m with
  | nil => simp [mset, mlookup, hab]
  | cons hd t ih =>
    obtain ⟨k, w⟩ := hd
    by_cases hk : k = a
    · subst hk; simp [mset, mlookup, hab]
    · simp [mset, hk, mlookup, ih]

theorem msum_mset (m : List (Nat × Nat)) (a v : Nat) :
    msum (mset m a v) + oval (mlookup m a) = msum m + v := by
  induction m with
  | nil => simp [mset, mlookup, oval]
  | cons hd t ih =>
    obtain ⟨k, w⟩ := hd
    by_cases hk : k = a
    · subst hk; simp [mset, mlookup, oval]; omega
    · simp only [mset, if_neg hk, mlookup, msum_cons] at *
      omega

theorem oval_mlookup_le_msum (m : List (Nat × Nat)) (a : Nat) :
    oval (mlookup m a) ≤ msum m := by
  induction m with
  | nil => simp [mlookup, oval]
  | cons hd t ih =>
    obtain ⟨k, w⟩ := hd
    by_cases hk : k = a
    · simp [mlookup, hk, oval]
    · simp only [mlookup, if_neg hk, msum_cons]
      omega

/-! ### Helper lemmas: 64-bit arithmetic -/

theorem fheAdd_of_lt {a b : Nat} (h : a + b < U64) : fheAdd a b = a + b := by
  simp [fheAdd, Nat.mod_eq_of_lt h]

theorem fheSub_of_le {a b : Nat} (hb : b ≤ a) (ha : a < U64) : fheSub a b = a - b := by
  have hbu : b % U64 = b := Nat.mod_eq_of_lt (lt_of_le_of_lt hb ha)
  have h1 : a + U64 - b % U64 = (a - b) + U64 := by omega
  simp only [fheSub, h1, Nat.add_mod_right]
  exact Nat.mod_eq_of_lt (by omega)

theorem oval_some (x : Nat) : oval (some x) = x := rfl

theorem update_zero_mint (dst amt : Nat) (l : Ledger) :
    update 0 dst amt l = .ok (mintResult dst amt l, mintAmt amt l) := by
  simp [update, mintResult, mintAmt]

/-! ### Helper lemmas: the confidential ledger -/

theorem update_zero (dst amt : Nat) (l : Ledger) :
    update 0 dst amt l =
      .ok (updateTo dst (fheSelect (tryIncrease l.totalSupply amt).1 amt 0)
             { l with totalSupply := some (tryIncrease l.totalSupply amt).2 },
           fheSelect (tryIncrease l.totalSupply amt).1 amt 0) := by
  simp [update]

theorem update_some {frm : Nat} (hfrm : frm ≠ 0) (dst amt : Nat) (l : Ledger) {fb : Nat}
    (hb : mlookup l.balances frm = some fb) :
    update frm dst amt l =
      .ok (updateTo dst (fheSelect (tryDecrease fb amt).1 amt 0)
             { l with balances := mset l.balances frm (tryDecrease fb amt).2 },
           fheSelect (tryDecrease fb amt).1 amt 0) := by
  simp [update, hfrm, hb]

theorem update_uninit {frm : Nat} (hfrm : frm ≠ 0) (dst amt : Nat) (l : Ledger)
    (hb : mlookup l.balances frm = none) :
    update frm dst amt l = .error .ZeroBalance := by
  simp [update, hfrm, hb]


/-- Effect of the receiver half of `_update` on a non-zero receiver. -/
theorem updateTo_ne {dst : Nat} (hdst : dst ≠ 0) (tr : Nat) (l : Ledger)
    (h : msum l.balances + tr < U64) :
    msum (updateTo dst tr l).balances = msum l.balances + tr ∧
    (updateTo dst tr l).totalSupply = l.totalSupply := by
  have hold : oval (mlookup l.balances dst) ≤ msum l.balances := oval_mlookup_le_msum _ _
  have hfa : fheAdd (oval (mlookup l.balances dst)) tr
      = oval (mlookup l.balances dst) + tr := fheAdd_of_lt (by omega)
  have hms := msum_mset l.balances dst (oval (mlookup l.balances dst) + tr)
  constructor
  · simp only [updateTo, if_neg hdst]
    rw [hfa]
    omega
  · simp [updateTo, hdst]

/-- Effect of the receiver half of `_update` on the zero address (a
burn): the supply is decreased, the balances untouched. -/
theorem updateTo_zero (tr : Nat) (l : Ledger)
    (htr : tr ≤ oval l.totalSupply) (hlt : oval l.totalSupply < U64) :
    (updateTo 0 tr l).balances = l.balances ∧
    oval (updateTo 0 tr l).totalSupply = oval l.totalSupply - tr := by
  constructor
  · simp [updateTo]
  · simp only [updateTo, if_pos rfl, oval, Option.getD_some]
    exact fheSub_of_le htr hlt

/-- The zero-address receiver half of `_update` leaves balances as they
were. -/
theorem updateTo_zero_balances (tr : Nat) (l : Ledger) :
    (updateTo 0 tr l).balances = l.balances := by
  simp [updateTo]

/-- Conservation and supply accounting across one successful `update`. -/
theorem update_conserves {l l1 : Ledger} {frm dst amt t : Nat}
    (hsum : msum l.balances = oval l.totalSupply)
    (hlt : oval l.totalSupply < U64)
    (h : update frm dst amt l = .ok (l1, t)) :
    msum l1.balances = oval l1.totalSupply ∧ oval l1.totalSupply < U64 ∧
    (frm = 0 → dst ≠ 0 → oval l1.totalSupply = oval l.totalSupply + t) ∧
    (frm ≠ 0 → dst = 0 → oval l1.totalSupply + t = oval l.totalSupply) ∧
    (frm ≠ 0 → dst ≠ 0 → l1.totalSupply = l.totalSupply) := by
  by_cases hfrm : frm = 0
  · subst hfrm
    rw [update_zero] at h
    by_cases hinc : oval l.totalSupply + amt < U64
    · rw [show tryIncrease l.totalSupply amt = (true, oval l.totalSupply + amt) from
          by simp [tryIncrease, hinc]] at h
      simp only [fheSelect, cond_true, Except.ok.injEq, Prod.mk.injEq] at h
      obtain ⟨hl1, ht⟩ := h
      subst hl1; subst ht
      by_cases hdst : dst = 0
      · subst hdst
        obtain ⟨hbal, hsup⟩ :=
          updateTo_zero amt { l with totalSupply := some (oval l.totalSupply + amt) }
            (by dsimp only; rw [oval_some]; omega)
            (by dsimp only; rw [oval_some]; omega)
        dsimp only at hbal hsup ⊢
        rw [oval_some] at hsup
        refine ⟨?_, ?_, ?_, ?_, ?_⟩
        · rw [hbal, hsup]; omega
        · rw [hsup]; omega
        · intro _ h0; exact absurd rfl h0
        · intro h0; exact absurd rfl h0
        · intro h0; exact absurd rfl h0
      · obtain ⟨hA, hB⟩ :=
          updateTo_ne hdst amt { l with totalSupply := some (oval l.totalSupply + amt) }
            (by dsimp only; omega)
        dsimp only at hA hB ⊢
        refine ⟨?_, ?_, ?_, ?_, ?_⟩
        · rw [hA, hB, oval_some]; omega
        · rw [hB, oval_some]; omega
        · intro _ _; rw [hB, oval_some]
        · intro h0; exact absurd rfl h0
        · intro h0; exact absurd rfl h0
    · rw [show tryIncrease l.totalSupply amt = (false, oval l.totalSupply) from
          by simp [tryIncrease, hinc]] at h
      simp only [fheSelect, cond_false, Except.ok.injEq, Prod.mk.injEq] at h
      obtain ⟨hl1, ht⟩ := h
      subst hl1; subst ht
      by_cases hdst : dst = 0
      · subst hdst
        obtain ⟨hbal, hsup⟩ :=
          updateTo_zero 0 { l with totalSupply := some (oval l.totalSupply) }
            (by dsimp only; rw [oval_some]; omega)
            (by dsimp only; rw [oval_some]; omega)
        dsimp only at hbal hsup ⊢
        rw [oval_some] at hsup
        refine ⟨?_, ?_, ?_, ?_, ?_⟩
        · rw [hbal, hsup]; omega
        · rw [hsup]; omega
        · intro _ h0; exact absurd rfl h0
        · intro h0; exact absurd rfl h0
        · intro h0; exact absurd rfl h0
      · obtain ⟨hA, hB⟩ :=
          updateTo_ne hdst 0 { l with totalSupply := some (oval l.totalSupply) }
            (by dsimp only; omega)
        dsimp only at hA hB ⊢
        refine ⟨?_, ?_, ?_, ?_, ?_⟩
        · rw [hA, hB, oval_some]; omega
        · rw [hB, oval_some]; omega
        · intro _ _; rw [hB, oval_some]; omega
        · intro h0; exact absurd rfl h0
        · intro h0; exact absurd rfl h0
  · rcases hb : mlookup l.balances frm with _ | fb
    · rw [update_uninit hfrm _ _ _ hb] at h
      exact absurd h (by simp)
    · have hfb : fb ≤ msum l.balances := by
        have := oval_mlookup_le_msum l.balances frm
        rw [hb] at this
        simpa [oval] using this
      rw [update_some hfrm _ _ _ hb] at h
      by_cases hdec : amt ≤ fb
      · rw [show tryDecrease fb amt = (true, fb - amt) from by simp [tryDecrease, hdec]] at h
        simp only [fheSelect, cond_true, Except.ok.injEq, Prod.mk.injEq] at h
        obtain ⟨hl1, ht⟩ := h
        subst hl1; subst ht
        have hmsmid : msum (mset l.balances frm (fb - amt)) = msum l.balances - amt := by
          have := msum_mset l.balances frm (fb - amt)
          rw [hb, oval_some] at this
          omega
        by_cases hdst : dst = 0
        · subst hdst
          obtain ⟨hbal, hsup⟩ :=
            updateTo_zero amt { l with balances := mset l.balances frm (fb - amt) }
              (by dsimp only; omega) (by dsimp only; exact hlt)
          dsimp only at hbal hsup ⊢
          refine ⟨?_, ?_, ?_, ?_, ?_⟩
          · rw [hbal, hsup, hmsmid]; omega
          · rw [hsup]; omega
          · intro h0; exact absurd h0 hfrm
          · intro _ _; rw [hsup]; omega
          · intro _ h0; exact absurd rfl h0
        · obtain ⟨hA, hB⟩ :=
            updateTo_ne hdst amt { l with balances := mset l.balances frm (fb - amt) }
              (by dsimp only; omega)
          dsimp only at hA hB ⊢
          refine ⟨?_, ?_, ?_, ?_, ?_⟩
          · rw [hA, hB, hmsmid]; omega
          · rw [hB]; exact hlt
          · intro h0; exact absurd h0 hfrm
          · intro _ h0; exact absurd h0 hdst
          · intro _ _; exact hB
      · rw [show tryDecrease fb amt = (false, fb) from by simp [tryDecrease, hdec]] at h
        simp only [fheSelect, cond_false, Except.ok.injEq, Prod.mk.injEq] at h
        obtain ⟨hl1, ht⟩ := h
        subst hl1; subst ht
        have hmsmid : msum (mset l.balances frm fb) = msum l.balances := by
          have := msum_mset l.balances frm fb
          rw [hb, oval_some] at this
          omega
        by_cases hdst : dst = 0
        · subst hdst
          obtain ⟨hbal, hsup⟩ :=
            updateTo_zero 0 { l with balances := mset l.balances frm fb }
              (by dsimp only; omega) (by dsimp only; exact hlt)
          dsimp only at hbal hsup ⊢
          refine ⟨?_, ?_, ?_, ?_, ?_⟩
          · rw [hbal, hsup, hmsmid]; omega
          · rw [hsup]; omega
          · intro h0; exact absurd h0 hfrm
          · intro _ _; rw [hsup]; omega
          · intro _ h0; exact absurd rfl h0
        · obtain ⟨hA, hB⟩ :=
            updateTo_ne hdst 0 { l with balances := mset l.balances frm fb }
              (by dsimp only; omega)
          dsimp only at hA hB ⊢
          refine ⟨?_, ?_, ?_, ?_, ?_⟩
          · rw [hA, hB, hmsmid]; omega
          · rw [hB]; exact hlt
          · intro h0; exact absurd h0 hfrm
          · intro _ h0; exact absurd h0 hdst
          · intro _ _; exact hB


/-! ### Helper lemmas: operation characterizations -/

theorem insertToMerkle_ok {cfg : Config} {c : Nat} {s s1 : State} {idx : Nat}
    (h : insertToMerkle cfg c s = .ok (s1, idx)) :
    c ∉ s.commitments ∧ s.nextIndex < 2 ^ cfg.levels ∧ idx = s.nextIndex ∧
    s1 = { s with leaves := s.leaves ++ [c],
                  nextIndex := s.nextIndex + 1,
                  roots := (cfg.computeRoot (s.leaves ++ [c]) :: s.roots).take cfg.rootHistorySize,
                  commitments := c :: s.commitments } := by
  by_cases hc : c ∈ s.commitments
  · simp [insertToMerkle, hc] at h
  · by_cases hcap : s.nextIndex < 2 ^ cfg.levels
    · simp only [insertToMerkle, if_neg hc, insertLeaf, if_pos hcap,
        Except.ok.injEq, Prod.mk.injEq] at h
      obtain ⟨h1, h2⟩ := h
      exact ⟨hc, hcap, h2.symm, h1.symm⟩
    · simp [insertToMerkle, hc, insertLeaf, hcap] at h

theorem insertToMerkle_dup {cfg : Config} {c : Nat} {s : State}
    (hc : c ∈ s.commitments) :
    insertToMerkle cfg c s = .error .CommitmentExists := by
  simp [insertToMerkle, hc]

theorem insertToMerkle_full {cfg : Config} {c : Nat} {s : State}
    (hc : c ∉ s.commitments) (hcap : ¬ s.nextIndex < 2 ^ cfg.levels) :
    insertToMerkle cfg c s = .error .StructureFull := by
  simp [insertToMerkle, hc, insertLeaf, hcap]

theorem insertToMerkle_fresh {cfg : Config} {c : Nat} {s : State}
    (hc : c ∉ s.commitments) (hcap : s.nextIndex < 2 ^ cfg.levels) :
    insertToMerkle cfg c s =
      .ok ({ s with leaves := s.leaves ++ [c],
                    nextIndex := s.nextIndex + 1,
                    roots := (cfg.computeRoot (s.leaves ++ [c]) :: s.roots).take cfg.rootHistorySize,
                    commitments := c :: s.commitments }, s.nextIndex) := by
  simp [insertToMerkle, hc, insertLeaf, hcap]

theorem deposit_ok_dest {cfg : Config} {sender c : Nat} {s s1 : State} {ev : List Event}
    (h : deposit cfg sender c s = .ok (s1, ev)) :
    c ∉ s.commitments ∧ s.nextIndex < 2 ^ cfg.levels ∧
    ∃ t1, tokenTransferFrom cfg.poolAddr sender cfg.poolAddr cfg.denomination s.token = some t1 ∧
      s1 = { s with leaves := s.leaves ++ [c],
                    nextIndex := s.nextIndex + 1,
                    roots := (cfg.computeRoot (s.leaves ++ [c]) :: s.roots).take cfg.rootHistorySize,
                    commitments := c :: s.commitments,
                    token := t1 } ∧
      ev = [.Deposit c s.nextIndex] := by
  rcases hins : insertToMerkle cfg c s with e | pr
  · rw [deposit, hins] at h; cases h
  · obtain ⟨s2, idx⟩ := pr
    obtain ⟨hc, hcap, hidx, hs2⟩ := insertToMerkle_ok hins
    rw [deposit, hins] at h
    dsimp only at h
    rcases htt : tokenTransferFrom cfg.poolAddr sender cfg.poolAddr cfg.denomination s2.token
      with _ | t1
    · rw [htt] at h; cases h
    · rw [htt] at h
      simp only [Except.ok.injEq, Prod.mk.injEq] at h
      obtain ⟨h1, h2⟩ := h
      subst hs2; subst hidx
      dsimp only at htt h1 h2
      exact ⟨hc, hcap, t1, htt, h1.symm, h2.symm⟩

theorem wrap_spent {cfg : Config} {p root recipient nh rel fee ref : Nat} {s : State}
    (hsp : nh ∈ s.nullifiers) :
    wrap cfg p root recipient nh rel fee ref s = .error .AlreadySpent := by
  simp [wrap, hsp]

theorem wrap_unknownRoot {cfg : Config} {p root recipient nh rel fee ref : Nat} {s : State}
    (hsp : nh ∉ s.nullifiers) (hr : root ∉ s.roots) :
    wrap cfg p root recipient nh rel fee ref s = .error .UnknownRoot := by
  simp [wrap, hsp, hr]

theorem wrap_invalidProof {cfg : Config} {p root recipient nh rel fee ref : Nat} {s : State}
    (hsp : nh ∉ s.nullifiers) (hr : root ∈ s.roots)
    (hv : cfg.verifier p (publicSignals root recipient nh rel fee ref) = false) :
    wrap cfg p root recipient nh rel fee ref s = .error .InvalidProof := by
  simp [wrap, hsp, hr, hv]

theorem wrap_ok {cfg : Config} {p root recipient nh rel fee ref : Nat} {s : State}
    (hsp : nh ∉ s.nullifiers) (hr : root ∈ s.roots)
    (hv : cfg.verifier p (publicSignals root recipient nh rel fee ref) = true)
    (hrec : recipient ≠ 0) :
    wrap cfg p root recipient nh rel fee ref s =
      .ok ({ s with nullifiers := nh :: s.nullifiers, ledger := mintResult recipient cfg.wrappedDenomination s.ledger }, [.Wrap recipient nh]) := by
  simp [wrap, hsp, hr, hv, hrec, update_zero_mint]

theorem wrap_ok_dest {cfg : Config} {p root recipient nh rel fee ref : Nat}
    {s s1 : State} {ev : List Event}
    (h : wrap cfg p root recipient nh rel fee ref s = .ok (s1, ev)) :
    nh ∉ s.nullifiers ∧ root ∈ s.roots ∧
    cfg.verifier p (publicSignals root recipient nh rel fee ref) = true ∧
    recipient ≠ 0 ∧
    ∃ l1 tr, update 0 recipient cfg.wrappedDenomination s.ledger = .ok (l1, tr) ∧
      s1 = { s with nullifiers := nh :: s.nullifiers, ledger := l1 } ∧
      ev = [.Wrap recipient nh] := by
  by_cases hsp : nh ∈ s.nullifiers
  · rw [wrap_spent hsp] at h; cases h
  · by_cases hr : root ∈ s.roots
    · rcases hv : cfg.verifier p (publicSignals root recipient nh rel fee ref) with _ | _
      · rw [wrap_invalidProof hsp hr hv] at h; cases h
      · by_cases hrec : recipient = 0
        · subst hrec
          simp [wrap, hsp, hr, hv] at h
        · rw [wrap_ok hsp hr hv hrec] at h
          simp only [Except.ok.injEq, Prod.mk.injEq] at h
          obtain ⟨h1, h2⟩ := h
          exact ⟨hsp, hr, rfl, hrec, _, _, update_zero_mint _ _ _, h1.symm, h2.symm⟩
    · rw [wrap_unknownRoot hsp hr] at h; cases h

theorem withdraw_spent {cfg : Config} {p root recipient nh rel fee ref : Nat} {s : State}
    (hsp : nh ∈ s.nullifiers) :
    withdraw cfg p root recipient nh rel fee ref s = .error .AlreadySpent := by
  simp [withdraw, hsp]

theorem withdraw_unknownRoot {cfg : Config} {p root recipient nh rel fee ref : Nat} {s : State}
    (hsp : nh ∉ s.nullifiers) (hr : root ∉ s.roots) :
    withdraw cfg p root recipient nh rel fee ref s = .error .UnknownRoot := by
  simp [withdraw, hsp, hr]

theorem withdraw_invalidProof {cfg : Config} {p root recipient nh rel fee ref : Nat} {s : State}
    (hsp : nh ∉ s.nullifiers) (hr : root ∈ s.roots)
    (hv : cfg.verifier p (publicSignals root recipient nh rel fee ref) = false) :
    withdraw cfg p root recipient nh rel fee ref s = .error .InvalidProof := by
  simp [withdraw, hsp, hr, hv]

theorem withdraw_transferFail {cfg : Config} {p root recipient nh rel fee ref : Nat} {s : State}
    (hsp : nh ∉ s.nullifiers) (hr : root ∈ s.roots)
    (hv : cfg.verifier p (publicSignals root recipient nh rel fee ref) = true)
    (htt : tokenTransfer cfg.poolAddr recipient cfg.denomination s.token = none) :
    withdraw cfg p root recipient nh rel fee ref s = .error .TransferOutFailed := by
  simp [withdraw, hsp, hr, hv, htt]

theorem withdraw_ok {cfg : Config} {p root recipient nh rel fee ref : Nat} {s : State}
    {t1 : TokenState}
    (hsp : nh ∉ s.nullifiers) (hr : root ∈ s.roots)
    (hv : cfg.verifier p (publicSignals root recipient nh rel fee ref) = true)
    (htt : tokenTransfer cfg.poolAddr recipient cfg.denomination s.token = some t1) :
    withdraw cfg p root recipient nh rel fee ref s =
      .ok ({ s with nullifiers := nh :: s.nullifiers, token := t1 },
           [.Withdraw recipient nh]) := by
  simp [withdraw, hsp, hr, hv, htt]

theorem withdraw_ok_dest {cfg : Config} {p root recipient nh rel fee ref : Nat}
    {s s1 : State} {ev : List Event}
    (h : withdraw cfg p root recipient nh rel fee ref s = .ok (s1, ev)) :
    nh ∉ s.nullifiers ∧ root ∈ s.roots ∧
    cfg.verifier p (publicSignals root recipient nh rel fee ref) = true ∧
    ∃ t1, tokenTransfer cfg.poolAddr recipient cfg.denomination s.token = some t1 ∧
      s1 = { s with nullifiers := nh :: s.nullifiers, token := t1 } ∧
      ev = [.Withdraw recipient nh] := by
  by_cases hsp : nh ∈ s.nullifiers
  · rw [withdraw_spent hsp] at h; cases h
  · by_cases hr : root ∈ s.roots
    · rcases hv : cfg.verifier p (publicSignals root recipient nh rel fee ref) with _ | _
      · rw [withdraw_invalidProof hsp hr hv] at h; cases h
      · rcases htt : tokenTransfer cfg.poolAddr recipient cfg.denomination s.token with _ | t1
        · rw [withdraw_transferFail hsp hr hv htt] at h; cases h
        · rw [withdraw_ok hsp hr hv htt] at h
          simp only [Except.ok.injEq, Prod.mk.injEq] at h
          obtain ⟨h1, h2⟩ := h
          exact ⟨hsp, hr, rfl, t1, rfl, h1.symm, h2.symm⟩
    · rw [withdraw_unknownRoot hsp hr] at h; cases h


theorem unwrap_ok_dest {cfg : Config} {sender c : Nat} {s s1 : State} {ev : List Event}
    (h : unwrap cfg sender c s = .ok (s1, ev)) :
    ∃ l1 a, obliviousTransfer sender cfg.poolAddr cfg.wrappedDenomination s.ledger = .ok (l1, a) ∧
      s1 = { s with ledger := l1,
                    pending := mset s.pending s.currentPendingIndex ⟨sender, c, a⟩,
                    currentPendingIndex := s.currentPendingIndex + 1 } ∧
      ev = [.PendingUnwrapEvent sender c a s.currentPendingIndex] := by
  rcases ht : obliviousTransfer sender cfg.poolAddr cfg.wrappedDenomination s.ledger with e | pr
  · rw [unwrap, ht] at h; cases h
  · obtain ⟨l1, a⟩ := pr
    rw [unwrap, ht] at h
    dsimp only at h
    simp only [Except.ok.injEq, Prod.mk.injEq] at h
    obtain ⟨h1, h2⟩ := h
    exact ⟨l1, a, rfl, h1.symm, h2.symm⟩

theorem finalizeUnwrap_dead {cfg : Config} {idx clear : Nat} {s : State}
    (h : ((mlookup s.pending idx).getD emptyRec).user = 0) :
    finalizeUnwrap cfg idx clear s = .error .AlreadyProcessed := by
  simp [finalizeUnwrap, h]

theorem finalizeUnwrap_badProof {cfg : Config} {idx clear : Nat} {s : State} {pu : PendingRec}
    (hl : mlookup s.pending idx = some pu) (hu : pu.user ≠ 0)
    (hc : clear ≠ pu.actualAmount) :
    finalizeUnwrap cfg idx clear s = .error .InvalidDisclosureProof := by
  simp [finalizeUnwrap, hl, hu, disclosureOk, hc]

theorem finalizeUnwrap_zero {cfg : Config} {idx : Nat} {s : State} {pu : PendingRec}
    (hl : mlookup s.pending idx = some pu) (hu : pu.user ≠ 0)
    (h0 : pu.actualAmount = 0) :
    finalizeUnwrap cfg idx 0 s =
      .ok ({ s with pending := mset s.pending idx emptyRec },
           [.UnwrapFailed pu.user pu.commitment pu.actualAmount idx]) := by
  simp [finalizeUnwrap, hl, hu, disclosureOk, h0]

theorem finalizeUnwrap_dup {cfg : Config} {idx clear : Nat} {s : State} {pu : PendingRec}
    (hl : mlookup s.pending idx = some pu) (hu : pu.user ≠ 0)
    (hc : clear = pu.actualAmount) (hnz : clear ≠ 0)
    (hdup : pu.commitment ∈ s.commitments) :
    finalizeUnwrap cfg idx clear s = .error .CommitmentExists := by
  subst hc
  simp [finalizeUnwrap, hl, hu, disclosureOk, hnz, insertToMerkle_dup hdup]

theorem finalizeUnwrap_nonzero {cfg : Config} {idx clear : Nat} {s : State} {pu : PendingRec}
    {l1 : Ledger} {tr : Nat}
    (hl : mlookup s.pending idx = some pu) (hu : pu.user ≠ 0)
    (hc : clear = pu.actualAmount) (hnz : clear ≠ 0)
    (hfresh : pu.commitment ∉ s.commitments) (hcap : s.nextIndex < 2 ^ cfg.levels)
    (hburn : burn cfg.poolAddr cfg.wrappedDenomination s.ledger = .ok (l1, tr)) :
    finalizeUnwrap cfg idx clear s =
      .ok ({ s with leaves := s.leaves ++ [pu.commitment],
                    nextIndex := s.nextIndex + 1,
                    roots := (cfg.computeRoot (s.leaves ++ [pu.commitment]) :: s.roots).take cfg.rootHistorySize,
                    commitments := pu.commitment :: s.commitments,
                    ledger := l1,
                    pending := mset s.pending idx emptyRec },
           [.UnwrapFinalized pu.user pu.commitment pu.actualAmount idx]) := by
  subst hc
  simp [finalizeUnwrap, hl, hu, disclosureOk, hnz, insertToMerkle_fresh hfresh hcap, hburn]

theorem finalizeUnwrap_ok_dest {cfg : Config} {idx clear : Nat} {s s1 : State}
    {ev : List Event}
    (h : finalizeUnwrap cfg idx clear s = .ok (s1, ev)) :
    ∃ pu, mlookup s.pending idx = some pu ∧ pu.user ≠ 0 ∧ clear = pu.actualAmount ∧
      s1.currentPendingIndex = s.currentPendingIndex ∧
      s1.nullifiers = s.nullifiers ∧
      mlookup s1.pending idx = some emptyRec ∧
      (∀ j, j ≠ idx → mlookup s1.pending j = mlookup s.pending j) ∧
      (∀ c0, c0 ∈ s.commitments → c0 ∈ s1.commitments) := by
  rcases hl : mlookup s.pending idx with _ | pu
  · rw [finalizeUnwrap_dead (by simp [hl, emptyRec])] at h
    cases h
  · by_cases hu : pu.user = 0
    · rw [finalizeUnwrap_dead (by simp [hl, hu])] at h
      cases h
    · by_cases hc : clear = pu.actualAmount
      · subst hc
        by_cases hnz : pu.actualAmount = 0
        · rw [hnz] at h
          rw [finalizeUnwrap_zero hl hu hnz] at h
          simp only [Except.ok.injEq, Prod.mk.injEq] at h
          obtain ⟨h1, h2⟩ := h
          subst h1
          exact ⟨pu, rfl, hu, rfl, rfl, rfl, mlookup_mset_self _ _ _,
                 fun j hj => mlookup_mset_ne _ _ _ _ (Ne.symm hj), fun c0 hc0 => hc0⟩
        · rcases hins : insertToMerkle cfg pu.commitment s with e | pr
          · have heq : finalizeUnwrap cfg idx pu.actualAmount s = .error e := by
              simp [finalizeUnwrap, hl, hu, disclosureOk, hnz, hins]
            rw [heq] at h; cases h
          · obtain ⟨s2, i2⟩ := pr
            obtain ⟨hfresh, hcap, hi2, hs2⟩ := insertToMerkle_ok hins
            rcases hburn : burn cfg.poolAddr cfg.wrappedDenomination s.ledger with e | pr2
            · have heq : finalizeUnwrap cfg idx pu.actualAmount s = .error e := by
                simp [finalizeUnwrap, hl, hu, disclosureOk, hnz,
                      insertToMerkle_fresh hfresh hcap, hburn]
              rw [heq] at h; cases h
            · obtain ⟨l1, tr⟩ := pr2
              rw [finalizeUnwrap_nonzero hl hu rfl hnz hfresh hcap hburn] at h
              simp only [Except.ok.injEq, Prod.mk.injEq] at h
              obtain ⟨h1, h2⟩ := h
              subst h1
              exact ⟨pu, rfl, hu, rfl, rfl, rfl, mlookup_mset_self _ _ _,
                     fun j hj => mlookup_mset_ne _ _ _ _ (Ne.symm hj),
                     fun c0 hc0 => List.mem_cons_of_mem _ hc0⟩
      · rw [finalizeUnwrap_badProof hl hu hc] at h
        cases h

theorem applyTx_ok {cfg : Config} {s : State} {op : Op} {s1 : State} {ev : List Event}
    (h : exec cfg s op = .ok (s1, ev)) : applyTx cfg s op = s1 := by
  simp [applyTx, h]

theorem applyTx_err {cfg : Config} {s : State} {op : Op} {e : Err}
    (h : exec cfg s op = .error e) : applyTx cfg s op = s := by
  simp [applyTx, h]


/-! ### Helper lemmas: facts preserved by every transaction -/

/-- A spent nullifier stays spent across any transaction. -/
theorem applyTx_nullifier_mono (cfg : Config) (s : State) (op : Op) {nh : Nat}
    (h : nh ∈ s.nullifiers) : nh ∈ (applyTx cfg s op).nullifiers := by
  rcases hex : exec cfg s op with e | pr
  · rw [applyTx_err hex]; exact h
  · obtain ⟨s1, ev⟩ := pr
    rw [applyTx_ok hex]
    cases op with
    | deposit sender c =>
      simp only [exec] at hex
      obtain ⟨_, _, t1, _, hs1, _⟩ := deposit_ok_dest hex
      subst hs1; exact h
    | wrap p r rec nh2 rel fee ref =>
      simp only [exec] at hex
      obtain ⟨_, _, _, _, l1, tr, _, hs1, _⟩ := wrap_ok_dest hex
      subst hs1; exact List.mem_cons_of_mem _ h
    | withdraw p r rec nh2 rel fee ref =>
      simp only [exec] at hex
      obtain ⟨_, _, _, t1, _, hs1, _⟩ := withdraw_ok_dest hex
      subst hs1; exact List.mem_cons_of_mem _ h
    | unwrap sender c =>
      simp only [exec] at hex
      obtain ⟨l1, a, _, hs1, _⟩ := unwrap_ok_dest hex
      subst hs1; exact h
    | finalizeUnwrap j clear =>
      simp only [exec] at hex
      obtain ⟨pu, _, _, _, _, hnul, _, _, _⟩ := finalizeUnwrap_ok_dest hex
      rw [hnul]; exact h

/-- A spent nullifier stays spent across any transaction sequence. -/
theorem execSeq_nullifier_mono (cfg : Config) (ops : List Op) {s : State} {nh : Nat}
    (h : nh ∈ s.nullifiers) : nh ∈ (execSeq cfg s ops).nullifiers := by
  induction ops generalizing s with
  | nil => exact h
  | cons op t ih => exact ih (applyTx_nullifier_mono cfg s op h)

/-- A dead pending slot below the cursor stays dead, and the cursor
never moves back. -/
theorem applyTx_dead_slot (cfg : Config) (s : State) (op : Op) {idx : Nat}
    (h1 : ((mlookup s.pending idx).getD emptyRec).user = 0)
    (h2 : idx < s.currentPendingIndex) :
    ((mlookup (applyTx cfg s op).pending idx).getD emptyRec).user = 0 ∧
    idx < (applyTx cfg s op).currentPendingIndex := by
  rcases hex : exec cfg s op with e | pr
  · rw [applyTx_err hex]; exact ⟨h1, h2⟩
  · obtain ⟨s1, ev⟩ := pr
    rw [applyTx_ok hex]
    cases op with
    | deposit sender c =>
      simp only [exec] at hex
      obtain ⟨_, _, t1, _, hs1, _⟩ := deposit_ok_dest hex
      subst hs1; exact ⟨h1, h2⟩
    | wrap p r rec nh2 rel fee ref =>
      simp only [exec] at hex
      obtain ⟨_, _, _, _, l1, tr, _, hs1, _⟩ := wrap_ok_dest hex
      subst hs1; exact ⟨h1, h2⟩
    | withdraw p r rec nh2 rel fee ref =>
      simp only [exec] at hex
      obtain ⟨_, _, _, t1, _, hs1, _⟩ := withdraw_ok_dest hex
      subst hs1; exact ⟨h1, h2⟩
    | unwrap sender c =>
      simp only [exec] at hex
      obtain ⟨l1, a, _, hs1, _⟩ := unwrap_ok_dest hex
      subst hs1
      refine ⟨?_, by dsimp only; omega⟩
      dsimp only
      rw [mlookup_mset_ne _ _ _ _ (by omega : s.currentPendingIndex ≠ idx)]
      exact h1
    | finalizeUnwrap j clear =>
      simp only [exec] at hex
      obtain ⟨pu, hl, hu, _, hcpi, _, hself, hother, _⟩ := finalizeUnwrap_ok_dest hex
      refine ⟨?_, by omega⟩
      by_cases hji : j = idx
      · subst hji; rw [hself]; rfl
      · rw [hother idx (fun he => hji he.symm)]; exact h1

/-- A dead pending slot below the cursor stays dead across any
transaction sequence. -/
theorem execSeq_dead_slot (cfg : Config) (ops : List Op) {s : State} {idx : Nat}
    (h1 : ((mlookup s.pending idx).getD emptyRec).user = 0)
    (h2 : idx < s.currentPendingIndex) :
    ((mlookup (execSeq cfg s ops).pending idx).getD emptyRec).user = 0 ∧
    idx < (execSeq cfg s ops).currentPendingIndex := by
  induction ops generalizing s with
  | nil => exact ⟨h1, h2⟩
  | cons op t ih =>
    obtain ⟨h1n, h2n⟩ := applyTx_dead_slot cfg s op h1 h2
    exact ih h1n h2n

/-- A live record below the cursor whose new commitment is already
registered and whose amount is non-zero survives any transaction
unchanged, with the duplicate registration intact. -/
theorem applyTx_stuck_record (cfg : Config) (s : State) (op : Op) {idx : Nat}
    {pu : PendingRec}
    (h1 : mlookup s.pending idx = some pu) (hu : pu.user ≠ 0)
    (h3 : pu.commitment ∈ s.commitments) (h4 : pu.actualAmount ≠ 0)
    (h5 : idx < s.currentPendingIndex) :
    mlookup (applyTx cfg s op).pending idx = some pu ∧
    pu.commitment ∈ (applyTx cfg s op).commitments ∧
    idx < (applyTx cfg s op).currentPendingIndex := by
  rcases hex : exec cfg s op with e | pr
  · rw [applyTx_err hex]; exact ⟨h1, h3, h5⟩
  · obtain ⟨s1, ev⟩ := pr
    rw [applyTx_ok hex]
    cases op with
    | deposit sender c =>
      simp only [exec] at hex
      obtain ⟨_, _, t1, _, hs1, _⟩ := deposit_ok_dest hex
      subst hs1; exact ⟨h1, List.mem_cons_of_mem _ h3, h5⟩
    | wrap p r rec nh2 rel fee ref =>
      simp only [exec] at hex
      obtain ⟨_, _, _, _, l1, tr, _, hs1, _⟩ := wrap_ok_dest hex
      subst hs1; exact ⟨h1, h3, h5⟩
    | withdraw p r rec nh2 rel fee ref =>
      simp only [exec] at hex
      obtain ⟨_, _, _, t1, _, hs1, _⟩ := withdraw_ok_dest hex
      subst hs1; exact ⟨h1, h3, h5⟩
    | unwrap sender c =>
      simp only [exec] at hex
      obtain ⟨l1, a, _, hs1, _⟩ := unwrap_ok_dest hex
      subst hs1
      refine ⟨?_, h3, by dsimp only; omega⟩
      dsimp only
      rw [mlookup_mset_ne _ _ _ _ (by omega : s.currentPendingIndex ≠ idx)]
      exact h1
    | finalizeUnwrap j clear =>
      simp only [exec] at hex
      by_cases hji : j = idx
      · subst hji
        by_cases hcl : clear = pu.actualAmount
        · rw [finalizeUnwrap_dup h1 hu hcl (by rw [hcl]; exact h4) h3] at hex
          cases hex
        · rw [finalizeUnwrap_badProof h1 hu hcl] at hex
          cases hex
      · obtain ⟨pu2, hl2, hu2, _, hcpi, _, hself, hother, hcom⟩ := finalizeUnwrap_ok_dest hex
        refine ⟨?_, hcom _ h3, by omega⟩
        rw [hother idx (fun he => hji he.symm)]
        exact h1

/-- The stuck-record configuration survives any transaction sequence. -/
theorem execSeq_stuck_record (cfg : Config) (ops : List Op) {s : State} {idx : Nat}
    {pu : PendingRec}
    (h1 : mlookup s.pending idx = some pu) (hu : pu.user ≠ 0)
    (h3 : pu.commitment ∈ s.commitments) (h4 : pu.actualAmount ≠ 0)
    (h5 : idx < s.currentPendingIndex) :
    mlookup (execSeq cfg s ops).pending idx = some pu ∧
    pu.commitment ∈ (execSeq cfg s ops).commitments ∧
    idx < (execSeq cfg s ops).currentPendingIndex := by
  induction ops generalizing s with
  | nil => exact ⟨h1, h3, h5⟩
  | cons op t ih =>
    obtain ⟨a, b, c⟩ := applyTx_stuck_record cfg s op h1 hu h3 h4 h5
    exact ih a b c


/-- Unpacking a successful external token transfer into field facts. -/
theorem tokenTransfer_some_dest {frm dst amt : Nat} {t t1 : TokenState}
    (h : tokenTransfer frm dst amt t = some t1) :
    amt ≤ oval (mlookup t.balances frm) ∧
    t1.allowance = t.allowance ∧
    (dst ≠ frm → oval (mlookup t1.balances dst) = oval (mlookup t.balances dst) + amt) ∧
    (∀ a, a ≠ frm → a ≠ dst → mlookup t1.balances a = mlookup t.balances a) := by
  by_cases hle : amt ≤ oval (mlookup t.balances frm)
  · simp only [tokenTransfer, if_pos hle, Option.some.injEq] at h
    subst h
    refine ⟨hle, rfl, ?_, ?_⟩
    · intro hdf
      dsimp only
      rw [mlookup_mset_self, oval_some,
          mlookup_mset_ne _ _ _ _ (fun he => hdf he.symm)]
    · intro a ha hf
      dsimp only
      rw [mlookup_mset_ne _ _ _ _ (fun he => hf he.symm),
          mlookup_mset_ne _ _ _ _ (fun he => ha he.symm)]
  · simp [tokenTransfer, hle] at h

/-- One accounting step preserves the ledger invariants. -/
theorem ledgerStep_inv (op : LedgerOp) (p : Ledger × Nat × Nat)
    (h1 : msum p.1.balances = oval p.1.totalSupply)
    (h2 : oval p.1.totalSupply < U64)
    (h3 : oval p.1.totalSupply + p.2.2 = p.2.1) :
    msum (ledgerStep p op).1.balances = oval (ledgerStep p op).1.totalSupply ∧
    oval (ledgerStep p op).1.totalSupply < U64 ∧
    oval (ledgerStep p op).1.totalSupply + (ledgerStep p op).2.2 = (ledgerStep p op).2.1 := by
  rcases hap : applyLedgerOp p.1 op with e | pr
  · simp only [ledgerStep, hap]; exact ⟨h1, h2, h3⟩
  · obtain ⟨l1, t⟩ := pr
    cases op with
    | mint dst amt =>
      have hupd := hap
      simp only [applyLedgerOp, mint] at hupd
      by_cases hd : dst = 0
      · rw [if_pos hd] at hupd; cases hupd
      · rw [if_neg hd] at hupd
        obtain ⟨c1, c2, c3, c4, c5⟩ := update_conserves h1 h2 hupd
        have hacc := c3 rfl hd
        simp only [ledgerStep, hap]
        exact ⟨c1, c2, by omega⟩
    | burn frm amt =>
      have hupd := hap
      simp only [applyLedgerOp, burn] at hupd
      by_cases hf : frm = 0
      · rw [if_pos hf] at hupd; cases hupd
      · rw [if_neg hf] at hupd
        obtain ⟨c1, c2, c3, c4, c5⟩ := update_conserves h1 h2 hupd
        have hacc := c4 hf rfl
        simp only [ledgerStep, hap]
        exact ⟨c1, c2, by omega⟩
    | transfer frm dst amt =>
      have hupd := hap
      simp only [applyLedgerOp, obliviousTransfer] at hupd
      by_cases hf : frm = 0
      · rw [if_pos hf] at hupd; cases hupd
      · rw [if_neg hf] at hupd
        by_cases hd : dst = 0
        · rw [if_pos hd] at hupd; cases hupd
        · rw [if_neg hd] at hupd
          obtain ⟨c1, c2, c3, c4, c5⟩ := update_conserves h1 h2 hupd
          have hsup : l1.totalSupply = p.1.totalSupply := c5 hf hd
          simp only [ledgerStep, hap]
          refine ⟨c1, c2, ?_⟩
          rw [hsup]
          omega

/-! ### The claims -/

/-- Claim C1: once either `wrap` or `withdraw` succeeds with a
nullifier hash, any later `wrap` or `withdraw` with the same hash —
after any further transaction sequence — fails with the AlreadySpent
error, regardless of which of the two operations is retried. -/
theorem nullifier_consumed_once (cfg : Config)
    (s s1 : State) (ev : List Event) (nh : Nat) (op1 : Op) (ops : List Op)
    (hop :
      (∃ p r rec rel fee ref, op1 = Op.wrap p r rec nh rel fee ref) ∨
      (∃ p r rec rel fee ref, op1 = Op.withdraw p r rec nh rel fee ref))
    (hok : exec cfg s op1 = .ok (s1, ev)) :
    ∀ p r rec rel fee ref,
      wrap cfg p r rec nh rel fee ref (execSeq cfg s1 ops) = .error .AlreadySpent ∧
      withdraw cfg p r rec nh rel fee ref (execSeq cfg s1 ops) = .error .AlreadySpent := by
  have hmem : nh ∈ s1.nullifiers := by
    rcases hop with ⟨p, r, rec, rel, fee, ref, h1⟩ | ⟨p, r, rec, rel, fee, ref, h1⟩
    · subst h1
      simp only [exec] at hok
      obtain ⟨_, _, _, _, l1, tr, _, hs1, _⟩ := wrap_ok_dest hok
      subst hs1
      exact List.mem_cons_self _ _
    · subst h1
      simp only [exec] at hok
      obtain ⟨_, _, _, t1, _, hs1, _⟩ := withdraw_ok_dest hok
      subst hs1
      exact List.mem_cons_self _ _
  have hmem2 : nh ∈ (execSeq cfg s1 ops).nullifiers := execSeq_nullifier_mono cfg ops hmem
  intro p r rec rel fee ref
  exact ⟨wrap_spent hmem2, withdraw_spent hmem2⟩

/-- Witness for C1: after the concrete wrap of nullifier 11, both
retries fail with AlreadySpent. -/
theorem nullifier_consumed_once_witness :
    wrap cfgA 0 7 5 11 0 0 0 sWafter = .error .AlreadySpent ∧
    withdraw cfgA 0 7 5 11 0 0 0 sWafter = .error .AlreadySpent := by
  have h := nullifier_consumed_once cfgA sW sWafter [.Wrap 5 11] 11
    (.wrap 0 7 5 11 0 0 0) [] (Or.inl ⟨0, 7, 5, 0, 0, 0, rfl⟩) rfl
  exact h 0 7 5 0 0 0

/-- Counterexample to C2 as stated: all three named checks pass on a
pool whose external-asset balance cannot cover the denomination, and
the withdraw nevertheless fails (with the transfer-out error), so the
claimed "if and only if" is false on the code. -/
theorem withdraw_iff_counterexample :
    (11 : Nat) ∉ sDrained.nullifiers ∧ (7 : Nat) ∈ sDrained.roots ∧
    cfgA.verifier 0 (publicSignals 7 6 11 0 0 0) = true ∧
    withdraw cfgA 0 7 6 11 0 0 0 sDrained = .error .TransferOutFailed :=
  ⟨by decide, by decide, rfl, rfl⟩

/-- Claim C2 (amended): withdraw succeeds iff the nullifier hash is not
yet spent, the root is known, the proof verifier accepts, and the
external asset transfer-out of the denomination succeeds; the first
three failures surface as AlreadySpent, UnknownRoot and InvalidProof in
that order; and on success the nullifier is recorded spent, the token
moves to the recipient, and the Withdraw event is emitted. -/
theorem withdraw_spec (cfg : Config) (p root recipient nh rel fee ref : Nat) (s : State) :
    ((∃ s1 ev, withdraw cfg p root recipient nh rel fee ref s = .ok (s1, ev)) ↔
      (nh ∉ s.nullifiers ∧ root ∈ s.roots ∧
       cfg.verifier p (publicSignals root recipient nh rel fee ref) = true ∧
       (tokenTransfer cfg.poolAddr recipient cfg.denomination s.token).isSome)) ∧
    (nh ∈ s.nullifiers →
       withdraw cfg p root recipient nh rel fee ref s = .error .AlreadySpent) ∧
    (nh ∉ s.nullifiers → root ∉ s.roots →
       withdraw cfg p root recipient nh rel fee ref s = .error .UnknownRoot) ∧
    (nh ∉ s.nullifiers → root ∈ s.roots →
       cfg.verifier p (publicSignals root recipient nh rel fee ref) = false →
       withdraw cfg p root recipient nh rel fee ref s = .error .InvalidProof) ∧
    (∀ s1 ev, withdraw cfg p root recipient nh rel fee ref s = .ok (s1, ev) →
       ∃ t1, tokenTransfer cfg.poolAddr recipient cfg.denomination s.token = some t1 ∧
         s1 = { s with nullifiers := nh :: s.nullifiers, token := t1 } ∧
         ev = [.Withdraw recipient nh]) := by
  refine ⟨⟨?_, ?_⟩, fun h => withdraw_spent h, fun h1 h2 => withdraw_unknownRoot h1 h2,
         fun h1 h2 h3 => withdraw_invalidProof h1 h2 h3, ?_⟩
  · rintro ⟨s1, ev, hok⟩
    obtain ⟨h1, h2, h3, t1, htt, _, _⟩ := withdraw_ok_dest hok
    exact ⟨h1, h2, h3, by rw [htt]; rfl⟩
  · rintro ⟨h1, h2, h3, h4⟩
    rcases htt : tokenTransfer cfg.poolAddr recipient cfg.denomination s.token with _ | t1
    · rw [htt] at h4; simp at h4
    · exact ⟨_, _, withdraw_ok h1 h2 h3 htt⟩
  · intro s1 ev hok
    obtain ⟨h1, h2, h3, t1, htt, hs1, hev⟩ := withdraw_ok_dest hok
    exact ⟨t1, htt, hs1, hev⟩

/-- Witness for C2: a concrete state where the amended conditions hold
and withdraw succeeds, and one where the nullifier is spent and withdraw
fails with AlreadySpent. -/
theorem withdraw_spec_witness :
    (∃ s1 ev, withdraw cfgA 0 7 6 11 0 0 0 sW = .ok (s1, ev)) ∧
    withdraw cfgA 0 7 6 11 0 0 0 sWafter = .error .AlreadySpent :=
  ⟨(withdraw_spec cfgA 0 7 6 11 0 0 0 sW).1.mpr ⟨by decide, by decide, rfl, rfl⟩,
   (withdraw_spec cfgA 0 7 6 11 0 0 0 sWafter).2.1 (by decide)⟩

/-- Claim C3: every operation is check-then-commit — a failing call
leaves the observable state exactly as it was (transaction revert); and
deposit succeeds exactly when the commitment is fresh, the tree has
room, and the asset transfer-in succeeds, in which case the commitment
is both registered and inserted and the tokens are pulled in; if the
transfer-in cannot succeed, nothing is inserted. -/
theorem check_then_commit (cfg : Config) (s : State) (op : Op) (sender c : Nat) :
    ((∃ e, exec cfg s op = .error e) → applyTx cfg s op = s) ∧
    ((∃ s1 ev, deposit cfg sender c s = .ok (s1, ev)) ↔
      (c ∉ s.commitments ∧ s.nextIndex < 2 ^ cfg.levels ∧
       (tokenTransferFrom cfg.poolAddr sender cfg.poolAddr cfg.denomination s.token).isSome)) ∧
    (∀ s1 ev, deposit cfg sender c s = .ok (s1, ev) →
       c ∈ s1.commitments ∧ s1.leaves = s.leaves ++ [c] ∧
       some s1.token = tokenTransferFrom cfg.poolAddr sender cfg.poolAddr cfg.denomination s.token ∧
       ev = [.Deposit c s.nextIndex]) ∧
    (tokenTransferFrom cfg.poolAddr sender cfg.poolAddr cfg.denomination s.token = none →
       applyTx cfg s (.deposit sender c) = s) := by
  refine ⟨?_, ⟨?_, ?_⟩, ?_, ?_⟩
  · rintro ⟨e, he⟩
    exact applyTx_err he
  · rintro ⟨s1, ev, hok⟩
    obtain ⟨hc, hcap, t1, htt, _, _⟩ := deposit_ok_dest hok
    exact ⟨hc, hcap, by rw [htt]; rfl⟩
  · rintro ⟨hc, hcap, hsome⟩
    rcases htt : tokenTransferFrom cfg.poolAddr sender cfg.poolAddr cfg.denomination s.token
      with _ | t1
    · rw [htt] at hsome; simp at hsome
    · have hdep : deposit cfg sender c s =
          .ok ({ s with leaves := s.leaves ++ [c], nextIndex := s.nextIndex + 1, roots := (cfg.computeRoot (s.leaves ++ [c]) :: s.roots).take cfg.rootHistorySize, commitments := c :: s.commitments, token := t1 }, [.Deposit c s.nextIndex]) := by
        rw [deposit, insertToMerkle_fresh hc hcap]
        dsimp only
        rw [htt]
      exact ⟨_, _, hdep⟩
  · intro s1 ev hok
    obtain ⟨hc, hcap, t1, htt, hs1, hev⟩ := deposit_ok_dest hok
    subst hs1
    exact ⟨List.mem_cons_self _ _, rfl, by rw [htt], hev⟩
  · intro htt
    by_cases hc : c ∈ s.commitments
    · have he : exec cfg s (.deposit sender c) = .error .CommitmentExists := by
        simp [exec, deposit, insertToMerkle_dup hc]
      exact applyTx_err he
    · by_cases hcap : s.nextIndex < 2 ^ cfg.levels
      · have he : exec cfg s (.deposit sender c) = .error .TransferInFailed := by
          simp only [exec]
          rw [deposit, insertToMerkle_fresh hc hcap]
          dsimp only
          rw [htt]
        exact applyTx_err he
      · have he : exec cfg s (.deposit sender c) = .error .StructureFull := by
          simp [exec, deposit, insertToMerkle_full hc hcap]
        exact applyTx_err he

/-- Witness for C3: the concrete deposit succeeds where the conditions
hold, and aborts with no effect where the allowance is missing. -/
theorem check_then_commit_witness :
    (∃ s1 ev, deposit cfgA 5 42 sW = .ok (s1, ev)) ∧
    applyTx cfgA sDrained (.deposit 5 42) = sDrained :=
  ⟨(check_then_commit cfgA sW (.deposit 5 42) 5 42).2.1.mpr ⟨by decide, by decide, rfl⟩,
   (check_then_commit cfgA sDrained (.deposit 5 42) 5 42).2.2.2 rfl⟩


/-- Claim C4: the oblivious confidential transfer returns the requested
amount exactly when the sender's balance covers it, and zero otherwise;
in the zero case both balances are unchanged in value; and an
insufficient balance is never surfaced as an error — the call succeeds
in both cases, with no control flow on the secret comparison. -/
theorem obliviousTransfer_spec (l : Ledger) (frm dst amt fb : Nat)
    (hf : frm ≠ 0) (hd : dst ≠ 0)
    (hb : mlookup l.balances frm = some fb) (hfb : fb < U64)
    (hdb : oval (mlookup l.balances dst) < U64) :
    ∃ l1, obliviousTransfer frm dst amt l = .ok (l1, if amt ≤ fb then amt else 0) ∧
      (¬ amt ≤ fb →
        oval (mlookup l1.balances frm) = fb ∧
        oval (mlookup l1.balances dst) = oval (mlookup l.balances dst)) := by
  by_cases hle : amt ≤ fb
  · refine ⟨updateTo dst amt { l with balances := mset l.balances frm (fb - amt) }, ?_,
           fun hcon => absurd hle hcon⟩
    rw [obliviousTransfer, if_neg hf, if_neg hd, update_some hf dst amt l hb]
    simp [tryDecrease, hle, fheSelect]
  · refine ⟨updateTo dst 0 { l with balances := mset l.balances frm fb }, ?_, ?_⟩
    · rw [obliviousTransfer, if_neg hf, if_neg hd, update_some hf dst amt l hb]
      simp [tryDecrease, hle, fheSelect]
    · intro _
      have hm1self : mlookup (mset l.balances frm fb) frm = some fb := mlookup_mset_self _ _ _
      by_cases hfd : dst = frm
      · subst hfd
        have hx : mlookup (updateTo dst 0 { l with balances := mset l.balances dst fb }).balances dst
            = some (fheAdd fb 0) := by
          simp only [updateTo, if_neg hd]
          rw [hm1self, oval_some]
          exact mlookup_mset_self _ _ _
        have hfb0 : fheAdd fb 0 = fb := by
          rw [fheAdd_of_lt (by omega : fb + 0 < U64)]
          omega
        constructor
        · rw [hx, oval_some, hfb0]
        · rw [hx, oval_some, hfb0, hb, oval_some]
      · have hm1d : mlookup (mset l.balances frm fb) dst = mlookup l.balances dst :=
          mlookup_mset_ne _ _ _ _ (fun he => hfd he.symm)
        have hx1 : mlookup (updateTo dst 0 { l with balances := mset l.balances frm fb }).balances frm
            = some fb := by
          simp only [updateTo, if_neg hd]
          rw [mlookup_mset_ne _ _ _ _ hfd, hm1self]
        have hx2 : mlookup (updateTo dst 0 { l with balances := mset l.balances frm fb }).balances dst
            = some (fheAdd (oval (mlookup l.balances dst)) 0) := by
          simp only [updateTo, if_neg hd]
          rw [hm1d]
          exact mlookup_mset_self _ _ _
        constructor
        · rw [hx1, oval_some]
        · rw [hx2, oval_some, fheAdd_of_lt (by omega : oval (mlookup l.balances dst) + 0 < U64)]
          omega

/-- Witness for C4: a transfer of 200 against a balance of 100 succeeds
with actual amount 0 and leaves the balance values unchanged. -/
theorem obliviousTransfer_spec_witness :
    ∃ l1, obliviousTransfer 5 1 200 sW.ledger = .ok (l1, if 200 ≤ 100 then 200 else 0) ∧
      (¬ 200 ≤ 100 →
        oval (mlookup l1.balances 5) = 100 ∧
        oval (mlookup l1.balances 1) = oval (mlookup sW.ledger.balances 1)) :=
  obliviousTransfer_spec sW.ledger 5 1 200 100 (by decide) (by decide) (by decide)
    (by decide) (by decide)

/-- Counterexample to C5 as stated: a live record whose disclosure
checks out with a non-zero clear amount but whose stored commitment is
already registered — the call fails with the duplicate-commitment error,
nothing is inserted or burned, and the record is not deleted. -/
theorem finalize_claim_counterexample :
    finalizeUnwrap cfgA 0 100 sDup = .error .CommitmentExists ∧
    applyTx cfgA sDup (.finalizeUnwrap 0 100) = sDup ∧
    mlookup sDup.pending 0 = some ⟨5, 9, 100⟩ :=
  ⟨rfl, rfl, rfl⟩

/-- Claim C5 (amended): for a live pending record whose disclosure proof
checks out, provided additionally that the stored commitment is not
already registered, the tree has room, and the pool escrow handle is
initialized: a non-zero clear amount inserts the commitment, obliviously
deducts the wrapped denomination from the pool escrow (exactly, when the
escrow covers it; a no-op otherwise), emits the success outcome and
deletes the record; a zero clear amount emits the failure outcome,
deletes the record, and changes nothing else. -/
theorem finalizeUnwrap_spec (cfg : Config) (idx clear : Nat) (s : State) (pu : PendingRec)
    (pb : Nat)
    (hl : mlookup s.pending idx = some pu) (hu : pu.user ≠ 0)
    (hc : clear = pu.actualAmount)
    (hfresh : pu.commitment ∉ s.commitments) (hcap : s.nextIndex < 2 ^ cfg.levels)
    (hpool : cfg.poolAddr ≠ 0)
    (hpb : mlookup s.ledger.balances cfg.poolAddr = some pb) :
    (clear ≠ 0 → ∃ s1, finalizeUnwrap cfg idx clear s =
        .ok (s1, [.UnwrapFinalized pu.user pu.commitment pu.actualAmount idx]) ∧
      pu.commitment ∈ s1.commitments ∧ s1.leaves = s.leaves ++ [pu.commitment] ∧
      mlookup s1.pending idx = some emptyRec ∧
      oval (mlookup s1.ledger.balances cfg.poolAddr) =
        (if cfg.wrappedDenomination ≤ pb then pb - cfg.wrappedDenomination else pb)) ∧
    (clear = 0 → finalizeUnwrap cfg idx clear s =
      .ok ({ s with pending := mset s.pending idx emptyRec },
           [.UnwrapFailed pu.user pu.commitment pu.actualAmount idx])) := by
  constructor
  · intro hnz
    have hburn : burn cfg.poolAddr cfg.wrappedDenomination s.ledger =
        .ok (updateTo 0 (fheSelect (tryDecrease pb cfg.wrappedDenomination).1 cfg.wrappedDenomination 0) { s.ledger with balances := mset s.ledger.balances cfg.poolAddr (tryDecrease pb cfg.wrappedDenomination).2 }, fheSelect (tryDecrease pb cfg.wrappedDenomination).1 cfg.wrappedDenomination 0) := by
      rw [burn, if_neg hpool, update_some hpool 0 cfg.wrappedDenomination s.ledger hpb]
    refine ⟨_, finalizeUnwrap_nonzero hl hu hc hnz hfresh hcap hburn,
           List.mem_cons_self _ _, rfl, mlookup_mset_self _ _ _, ?_⟩
    simp only [updateTo_zero_balances, mlookup_mset_self, oval_some]
    by_cases hle : cfg.wrappedDenomination ≤ pb
    · simp [tryDecrease, hle]
    · simp [tryDecrease, hle]
  · intro h0
    subst h0
    exact finalizeUnwrap_zero hl hu hc.symm

/-- Witness for C5: the concrete fresh-commitment record finalizes
successfully with insertion, deletion, and exact escrow deduction. -/
theorem finalizeUnwrap_spec_witness :
    ∃ s1, finalizeUnwrap cfgA 0 100 sFresh =
        .ok (s1, [.UnwrapFinalized 5 9 100 0]) ∧
      (9 : Nat) ∈ s1.commitments ∧ s1.leaves = sFresh.leaves ++ [9] ∧
      mlookup s1.pending 0 = some emptyRec ∧
      oval (mlookup s1.ledger.balances cfgA.poolAddr) =
        (if cfgA.wrappedDenomination ≤ 100 then 100 - cfgA.wrappedDenomination else 100) := by
  have h := finalizeUnwrap_spec cfgA 0 100 sFresh ⟨5, 9, 100⟩ 100 (by decide) (by decide)
    (by decide) (by decide) (by decide) (by decide) (by decide)
  exact h.1 (by decide)

/-- Claim C6: finalizeUnwrap succeeds at most once per index — after a
success, a call with the same index after any transaction sequence
fails with the AlreadyProcessed error and changes nothing, and an index
whose slot is empty (never created) fails the same way. -/
theorem finalizeUnwrap_at_most_once (cfg : Config) (s s1 : State) (ev : List Event)
    (idx clear : Nat) (ops : List Op)
    (hidx : idx < s.currentPendingIndex)
    (hok : finalizeUnwrap cfg idx clear s = .ok (s1, ev)) :
    (∀ c2, finalizeUnwrap cfg idx c2 (execSeq cfg s1 ops) = .error .AlreadyProcessed ∧
           applyTx cfg (execSeq cfg s1 ops) (.finalizeUnwrap idx c2) = execSeq cfg s1 ops) ∧
    (∀ t c2, ((mlookup t.pending idx).getD emptyRec).user = 0 →
       finalizeUnwrap cfg idx c2 t = .error .AlreadyProcessed) := by
  obtain ⟨pu, hl, hu, hclear, hcpi, hnul, hself, hother, hcom⟩ := finalizeUnwrap_ok_dest hok
  have hdead : ((mlookup s1.pending idx).getD emptyRec).user = 0 := by rw [hself]; rfl
  have hlt : idx < s1.currentPendingIndex := by omega
  constructor
  · intro c2
    obtain ⟨hd, -⟩ := execSeq_dead_slot cfg ops hdead hlt
    have herr := @finalizeUnwrap_dead cfg idx c2 _ hd
    have he2 : exec cfg (execSeq cfg s1 ops) (.finalizeUnwrap idx c2)
        = .error .AlreadyProcessed := by
      simp only [exec]
      exact herr
    exact ⟨herr, applyTx_err he2⟩
  · intro t c2 ht
    exact finalizeUnwrap_dead ht

/-- Witness for C6: after the concrete zero-amount finalization, both a
replay at index 0 and a call at the never-used index 1 fail with
AlreadyProcessed. -/
theorem finalizeUnwrap_at_most_once_witness :
    finalizeUnwrap cfgA 0 0 sZeroAfter = .error .AlreadyProcessed ∧
    finalizeUnwrap cfgA 1 0 sZeroAfter = .error .AlreadyProcessed := by
  have h := finalizeUnwrap_at_most_once cfgA sZero sZeroAfter [.UnwrapFailed 5 9 0 0] 0 0 []
    (by decide) rfl
  exact ⟨(h.1 0).1, h.2 sZeroAfter 0 (by decide)⟩

/-- Claim C7: both wrap and withdraw hand the proof verifier exactly the
six-element vector [root, recipient, nullifierHash, relayer, fee,
refund] (addresses cast through uint160), in this order: success
requires the verifier to have accepted precisely that vector, and its
rejection of exactly that vector is the InvalidProof failure. -/
theorem publicSignals_exact (cfg : Config) (p root recipient nh rel fee ref : Nat)
    (s s1 : State) (ev : List Event) :
    publicSignals root recipient nh rel fee ref
      = [root, recipient % U160, nh, rel % U160, fee, ref] ∧
    (publicSignals root recipient nh rel fee ref).length = 6 ∧
    (wrap cfg p root recipient nh rel fee ref s = .ok (s1, ev) →
      cfg.verifier p [root, recipient % U160, nh, rel % U160, fee, ref] = true) ∧
    (withdraw cfg p root recipient nh rel fee ref s = .ok (s1, ev) →
      cfg.verifier p [root, recipient % U160, nh, rel % U160, fee, ref] = true) ∧
    (nh ∉ s.nullifiers → root ∈ s.roots →
      cfg.verifier p [root, recipient % U160, nh, rel % U160, fee, ref] = false →
      wrap cfg p root recipient nh rel fee ref s = .error .InvalidProof ∧
      withdraw cfg p root recipient nh rel fee ref s = .error .InvalidProof) := by
  refine ⟨rfl, rfl, ?_, ?_, ?_⟩
  · intro h
    exact (wrap_ok_dest h).2.2.1
  · intro h
    exact (withdraw_ok_dest h).2.2.1
  · intro h1 h2 h3
    exact ⟨wrap_invalidProof h1 h2 h3, withdraw_invalidProof h1 h2 h3⟩

/-- Witness for C7: with a rejecting verifier, both operations fail
exactly with InvalidProof on the concrete state. -/
theorem publicSignals_exact_witness :
    wrap cfgB 0 7 5 11 0 0 0 sW = .error .InvalidProof ∧
    withdraw cfgB 0 7 5 11 0 0 0 sW = .error .InvalidProof := by
  have h := publicSignals_exact cfgB 0 7 5 11 0 0 0 sW sW []
  exact h.2.2.2.2 (by decide) (by decide) rfl

/-- Claim C8: ledger conservation — after any sequence of mint, burn
and oblivious-transfer operations from the pristine ledger, the sum of
all account balances equals the total supply, and the total supply
equals the cumulative effectively-minted amounts minus the cumulative
effectively-burned amounts. -/
theorem ledger_conservation (ops : List LedgerOp) :
    msum (runLedger (initLedger, 0, 0) ops).1.balances
      = oval (runLedger (initLedger, 0, 0) ops).1.totalSupply ∧
    oval (runLedger (initLedger, 0, 0) ops).1.totalSupply
        + (runLedger (initLedger, 0, 0) ops).2.2
      = (runLedger (initLedger, 0, 0) ops).2.1 := by
  have main : ∀ (l : List LedgerOp) (p : Ledger × Nat × Nat),
      msum p.1.balances = oval p.1.totalSupply →
      oval p.1.totalSupply < U64 →
      oval p.1.totalSupply + p.2.2 = p.2.1 →
      msum (runLedger p l).1.balances = oval (runLedger p l).1.totalSupply ∧
      oval (runLedger p l).1.totalSupply < U64 ∧
      oval (runLedger p l).1.totalSupply + (runLedger p l).2.2 = (runLedger p l).2.1 := by
    intro l
    induction l with
    | nil => intro p h1 h2 h3; exact ⟨h1, h2, h3⟩
    | cons op t ih =>
      intro p h1 h2 h3
      obtain ⟨k1, k2, k3⟩ := ledgerStep_inv op p h1 h2 h3
      exact ih _ k1 k2 k3
  obtain ⟨a, -, c⟩ := main ops (initLedger, 0, 0) rfl (by decide) rfl
  exact ⟨a, c⟩


/-- Claim C9: relayer, fee and refund feed only the proof check.  On a
successful withdraw only the nullifier registry and the token balances
change, the recipient gains exactly the denomination, and a relayer
distinct from the pool and the recipient gains nothing; on a successful
wrap only the nullifier registry and the confidential ledger change and
a relayer distinct from the recipient gains nothing; and two successful
calls differing only in proof, relayer, fee and refund produce identical
states and events. -/
theorem relayer_fee_frame (cfg : Config)
    (p p2 root recipient nh rel rel2 fee fee2 ref ref2 : Nat)
    (s s1 s2 : State) (ev ev2 : List Event) :
    (withdraw cfg p root recipient nh rel fee ref s = .ok (s1, ev) →
       s1.leaves = s.leaves ∧ s1.roots = s.roots ∧ s1.commitments = s.commitments ∧
       s1.pending = s.pending ∧ s1.currentPendingIndex = s.currentPendingIndex ∧
       s1.ledger = s.ledger ∧ s1.nullifiers = nh :: s.nullifiers ∧
       s1.token.allowance = s.token.allowance ∧
       (recipient ≠ cfg.poolAddr →
         oval (mlookup s1.token.balances recipient)
           = oval (mlookup s.token.balances recipient) + cfg.denomination) ∧
       (rel ≠ cfg.poolAddr → rel ≠ recipient →
         mlookup s1.token.balances rel = mlookup s.token.balances rel)) ∧
    (wrap cfg p root recipient nh rel fee ref s = .ok (s1, ev) →
       s1.leaves = s.leaves ∧ s1.roots = s.roots ∧ s1.commitments = s.commitments ∧
       s1.pending = s.pending ∧ s1.currentPendingIndex = s.currentPendingIndex ∧
       s1.token = s.token ∧ s1.nullifiers = nh :: s.nullifiers ∧
       (rel ≠ recipient →
         mlookup s1.ledger.balances rel = mlookup s.ledger.balances rel)) ∧
    (withdraw cfg p root recipient nh rel fee ref s = .ok (s1, ev) →
     withdraw cfg p2 root recipient nh rel2 fee2 ref2 s = .ok (s2, ev2) →
     s1 = s2 ∧ ev = ev2) ∧
    (wrap cfg p root recipient nh rel fee ref s = .ok (s1, ev) →
     wrap cfg p2 root recipient nh rel2 fee2 ref2 s = .ok (s2, ev2) →
     s1 = s2 ∧ ev = ev2) := by
  refine ⟨?_, ?_, ?_, ?_⟩
  · intro hok
    obtain ⟨h1, h2, h3, t1, htt, hs1, hev⟩ := withdraw_ok_dest hok
    subst hs1
    obtain ⟨hle, hall, hrec, hoth⟩ := tokenTransfer_some_dest htt
    exact ⟨rfl, rfl, rfl, rfl, rfl, rfl, rfl, hall,
           fun hrp => hrec hrp, fun hr1 hr2 => hoth rel hr1 hr2⟩
  · intro hok
    obtain ⟨h1, h2, h3, hrec0, l1, tr, hupd, hs1, hev⟩ := wrap_ok_dest hok
    subst hs1
    rw [update_zero_mint] at hupd
    simp only [Except.ok.injEq, Prod.mk.injEq] at hupd
    obtain ⟨hl1, htr⟩ := hupd
    subst hl1
    refine ⟨rfl, rfl, rfl, rfl, rfl, rfl, rfl, ?_⟩
    intro hrr
    simp only [mintResult, updateTo, if_neg hrec0]
    exact mlookup_mset_ne _ _ _ _ (fun he => hrr he.symm)
  · intro hok1 hok2
    obtain ⟨-, -, -, t1, htt1, hs1, hev1⟩ := withdraw_ok_dest hok1
    obtain ⟨-, -, -, t2, htt2, hs2, hev2⟩ := withdraw_ok_dest hok2
    subst hs1
    subst hs2
    subst hev1
    subst hev2
    rw [htt1] at htt2
    obtain rfl : t1 = t2 := by
      injection htt2 with h
    exact ⟨rfl, rfl⟩
  · intro hok1 hok2
    obtain ⟨-, -, -, hr0, l1, tr1, hupd1, hs1, hev1⟩ := wrap_ok_dest hok1
    obtain ⟨-, -, -, -, l2, tr2, hupd2, hs2, hev2⟩ := wrap_ok_dest hok2
    subst hs1
    subst hs2
    subst hev1
    subst hev2
    rw [update_zero_mint] at hupd1 hupd2
    simp only [Except.ok.injEq, Prod.mk.injEq] at hupd1 hupd2
    obtain ⟨ha, -⟩ := hupd1
    obtain ⟨hb, -⟩ := hupd2
    subst ha
    subst hb
    exact ⟨rfl, rfl⟩

/-- Witness for C9: in the concrete successful withdraw the recipient
gains exactly the denomination and the relayer address 3 is
untouched. -/
theorem relayer_fee_frame_witness :
    oval (mlookup sWw.token.balances 6)
      = oval (mlookup sW.token.balances 6) + cfgA.denomination ∧
    mlookup sWw.token.balances 3 = mlookup sW.token.balances 3 := by
  obtain ⟨-, -, -, -, -, -, -, -, hrec, hrel⟩ :=
    (relayer_fee_frame cfgA 0 0 7 6 11 3 8 4 9 5 10 sW sWw sWw
      [.Withdraw 6 11] [.Withdraw 6 11]).1 rfl
  exact ⟨hrec (by decide), hrel (by decide) (by decide)⟩

/-- Claim C10: a live pending record whose stored commitment is already
registered can never be finalized successfully: after any transaction
sequence, disclosing the true (non-zero) amount fails with the
duplicate-commitment error, no clear amount can produce a success, and
the record survives undeleted. -/
theorem finalize_dup_commitment_stuck (cfg : Config) (s : State) (idx : Nat)
    (pu : PendingRec) (ops : List Op)
    (h1 : mlookup s.pending idx = some pu) (hu : pu.user ≠ 0)
    (h3 : pu.commitment ∈ s.commitments) (h4 : pu.actualAmount ≠ 0)
    (h5 : idx < s.currentPendingIndex) :
    finalizeUnwrap cfg idx pu.actualAmount (execSeq cfg s ops) = .error .CommitmentExists ∧
    (∀ c2 t ev, finalizeUnwrap cfg idx c2 (execSeq cfg s ops) ≠ .ok (t, ev)) ∧
    mlookup (applyTx cfg (execSeq cfg s ops) (.finalizeUnwrap idx pu.actualAmount)).pending idx
      = some pu := by
  obtain ⟨k1, k3, k5⟩ := execSeq_stuck_record cfg ops h1 hu h3 h4 h5
  have herr : finalizeUnwrap cfg idx pu.actualAmount (execSeq cfg s ops)
      = .error .CommitmentExists :=
    finalizeUnwrap_dup k1 hu rfl h4 k3
  refine ⟨herr, ?_, ?_⟩
  · intro c2 t ev hok
    by_cases hc : c2 = pu.actualAmount
    · subst hc
      rw [herr] at hok
      simp at hok
    · rw [finalizeUnwrap_badProof k1 hu hc] at hok
      simp at hok
  · have he2 : exec cfg (execSeq cfg s ops) (.finalizeUnwrap idx pu.actualAmount)
        = .error .CommitmentExists := by
      simp only [exec]
      exact herr
    rw [applyTx_err he2]
    exact k1

/-- Witness for C10 at the concrete duplicate-commitment record. -/
theorem finalize_dup_commitment_stuck_witness :
    finalizeUnwrap cfgA 0 100 sDup = .error .CommitmentExists ∧
    mlookup (applyTx cfgA sDup (.finalizeUnwrap 0 100)).pending 0
      = some (⟨5, 9, 100⟩ : PendingRec) := by
  have h := finalize_dup_commitment_stuck cfgA sDup 0 ⟨5, 9, 100⟩ []
    (by decide) (by decide) (by decide) (by decide) (by decide)
  exact ⟨h.1, h.2.2⟩

end FT
